import Mathlib

/-!
Shallow embedding of the FreshiFy backend persistence layer
(`app/DB_FreshiFy.py` and the thought endpoint of `app/Notify_Alerts.py`).

Modelling conventions:
* Python strings are Lean `String`s; where character-level reasoning is
  needed (word splitting) we work on `String.data : List Char`.
* Python `datetime` values are a `DateTime` structure of calendar fields;
  instants are compared through `toMicros`, the microsecond count derived
  from the civil-calendar day number (`daysFromCivil`).
* Python floats are modelled as `Rat` (the monetary examples in the spec
  are exact decimals, where IEEE and rational arithmetic agree).
* MongoDB collections are Lean lists of documents; a `find` with a filter
  is `List.filter`, a store-level sort is `List.insertionSort`, `limit`
  is `List.take`, and the absent collection handle of degraded mode is an
  `Option` around the collection.
* A Python call that raises is an `Except` error; a caught exception is a
  returned fallback value, exactly as in the source.
-/

namespace FreshiFy

/-! ### Characters and word splitting (Python `str.split()` / `" ".join`) -/

/-- The whitespace characters recognised by Python's `str.split()`. -/
def wsChar (c : Char) : Bool :=
  c = ' ' || c = '\t' || c = '\n' || c = '\r' || c = '\x0b' || c = '\x0c'

/-- Python `text.split()` on a list of characters: maximal runs of
non-whitespace characters, with empty pieces discarded. -/
def pyWords (s : List Char) : List (List Char) :=
  match s with
  | [] => []
  | c :: cs =>
    if wsChar c then pyWords cs
    else (c :: cs.takeWhile (fun d => !wsChar d)) ::
      pyWords (cs.dropWhile (fun d => !wsChar d))
termination_by s.length
decreasing_by
  · simp only [List.length_cons]
    exact Nat.lt_succ_of_le (Nat.le_refl _)
  · simp only [List.length_cons]
    exact Nat.lt_succ_of_le (List.dropWhile_sublist _).length_le

/-- Python `" ".join(ws)`: words joined by single spaces. -/
def unwords : List (List Char) → List Char
  | [] => []
  | [w] => w
  | w :: ws => w ++ ' ' :: unwords ws

/-- Python `str.lstrip()` restricted to whitespace. -/
def lstripChars (s : List Char) : List Char := s.dropWhile wsChar

/-- Python `str.rstrip()` restricted to whitespace. -/
def rstripChars (s : List Char) : List Char :=
  (s.reverse.dropWhile wsChar).reverse

/-- Python `str.strip()` restricted to whitespace. -/
def stripChars (s : List Char) : List Char := lstripChars (rstripChars s)

/-! ### Lexicographic string order (Python string comparison) -/

/-- Lexicographic `≤` on character lists by code point, as Python compares
strings. -/
def lexLe : List Char → List Char → Bool
  | [], _ => true
  | _ :: _, [] => false
  | a :: as, b :: bs =>
    if a.toNat < b.toNat then true
    else if b.toNat < a.toNat then false
    else lexLe as bs

def strLe (a b : String) : Bool := lexLe a.data b.data

def strLt (a b : String) : Bool := strLe a b && !(strLe b a)

/-! ### Civil calendar arithmetic -/

/-- Day number of a civil date (days since 1970-01-01), the standard
days-from-civil algorithm; faithful to what Python's `date` subtraction
computes. -/
def daysFromCivil (y m d : Int) : Int :=
  let y2 := if m ≤ 2 then y - 1 else y
  let era := (if 0 ≤ y2 then y2 else y2 - 399) / 400
  let yoe := y2 - era * 400
  let doy := (153 * (if 2 < m then m - 3 else m + 9) + 2) / 5 + d - 1
  let doe := yoe * 365 + yoe / 4 - yoe / 100 + doy
  era * 146097 + doe - 719468

/-- A `datetime` value: calendar fields plus time of day (UTC). -/
structure DateTime where
  year : Int
  month : Int
  day : Int
  hour : Int
  minute : Int
  second : Int
  micro : Int
deriving DecidableEq, Repr

/-- The instant of a `DateTime` as microseconds since the epoch; datetimes
compare (as in Mongo's `$gte`/`$lt` and Python comparison) through this key. -/
def DateTime.toMicros (t : DateTime) : Int :=
  ((((daysFromCivil t.year t.month t.day * 24 + t.hour) * 60 + t.minute) * 60
    + t.second) * 1000000) + t.micro

/-- Python `date` subtraction, in whole days: `(a - b).days` for dates. -/
def dateDiffDays (a b : DateTime) : Int :=
  daysFromCivil a.year a.month a.day - daysFromCivil b.year b.month b.day

/-! ### Python values and numeric coercion (`float(x)` / `int(x)`) -/

/-- A dynamically typed Python value, as far as the numeric fields of the
record writers need. -/
inductive PyVal where
  | pyNone
  | pyBool (b : Bool)
  | pyInt (n : Int)
  | pyFloat (q : Rat)
  | pyStr (s : String)
deriving DecidableEq, Repr

/-- Value of a digit run (caller guarantees the characters are digits). -/
def digitsVal (ds : List Char) : Nat :=
  ds.foldl (fun acc c => acc * 10 + (c.toNat - 48)) 0

/-- The plain-decimal subset of Python's `float(str)` grammar: optional
sign, digits with an optional fractional part, surrounding whitespace
stripped. -/
def parseFloatStr (s : String) : Option Rat :=
  let cs := stripChars s.data
  let signed : Int × List Char :=
    match cs with
    | '-' :: rest => (-1, rest)
    | '+' :: rest => (1, rest)
    | _ => (1, cs)
  let body := signed.2
  let ip := body.takeWhile (fun c => c ≠ '.')
  match body.dropWhile (fun c => c ≠ '.') with
  | [] =>
    if ip ≠ [] && ip.all Char.isDigit then
      some ((signed.1 : Rat) * (digitsVal ip : Rat))
    else none
  | _ :: frac =>
    if (ip.all Char.isDigit && frac.all Char.isDigit)
        && (!ip.isEmpty || !frac.isEmpty) then
      some ((signed.1 : Rat) *
        ((digitsVal ip : Rat) + (digitsVal frac : Rat) / (10 ^ frac.length)))
    else none

/-- Python `int(str)`: optional sign and digits only. -/
def parseIntStr (s : String) : Option Int :=
  let cs := stripChars s.data
  match cs with
  | '-' :: rest =>
    if rest ≠ [] && rest.all Char.isDigit then some (-(digitsVal rest : Int))
    else none
  | '+' :: rest =>
    if rest ≠ [] && rest.all Char.isDigit then some (digitsVal rest : Int)
    else none
  | _ =>
    if cs ≠ [] && cs.all Char.isDigit then some (digitsVal cs : Int)
    else none

/-- Python `float(x)`: numbers and numeric strings coerce, everything else
raises (`TypeError`/`ValueError`). -/
def pyToFloat : PyVal → Except String Rat
  | .pyNone => .error "TypeError: float() argument must not be None"
  | .pyBool b => .ok (if b then 1 else 0)
  | .pyInt n => .ok (n : Rat)
  | .pyFloat q => .ok q
  | .pyStr s =>
    match parseFloatStr s with
    | some q => .ok q
    | none => .error "ValueError: could not convert string to float"

/-- Python `int(x)`: ints pass through, floats truncate toward zero,
integer strings parse, everything else raises. -/
def pyToInt : PyVal → Except String Int
  | .pyNone => .error "TypeError: int() argument must not be None"
  | .pyBool b => .ok (if b then 1 else 0)
  | .pyInt n => .ok n
  | .pyFloat q => .ok (q.num.tdiv (q.den : Int))
  | .pyStr s =>
    match parseIntStr s with
    | some n => .ok n
    | none => .error "ValueError: invalid literal for int()"

/-- The list comprehension `[int(x) for x in rgb]`, evaluated left to
right, raising on the first uncoercible element. -/
def coerceIntList : List PyVal → Except String (List Int)
  | [] => .ok []
  | x :: xs => do
    let v ← pyToInt x
    let vs ← coerceIntList xs
    .ok (v :: vs)

/-! ### Identifiers (`bson.ObjectId` / `_oid`) -/

def isHexDigitChar (c : Char) : Bool :=
  (48 ≤ c.toNat && c.toNat ≤ 57) || (97 ≤ c.toNat && c.toNat ≤ 102)
    || (65 ≤ c.toNat && c.toNat ≤ 70)

/-- Model of `_oid`: `ObjectId(s)` succeeds exactly on 24-character hex strings;
any other string raises, which `_oid` catches and maps to `None`. -/
def oidOf (s : String) : Option String :=
  if s.length = 24 && s.data.all isHexDigitChar then some s else none

/-- Python `x or default` for an optional string field: `None` and the
empty string are falsy. -/
def pyOrStr (o : Option String) (dflt : String) : String :=
  match o with
  | some s => if s = "" then dflt else s
  | none => dflt

/-! ### Documents -/

/-- A document of `sensors_data` as written by `insert_sensor_result`. -/
structure SensorDoc where
  user : String
  deviceId : Option String
  nh3 : Rat
  rgb : List Int
  c : Int
  food : Option String
  status : Option String
  source : String
  createdAt : DateTime
deriving DecidableEq, Repr

/-- A raw `sensors_data` document as read back by `get_history`; the
timestamp is carried as its ISO rendering (UTC ISO strings compare
lexicographically exactly as the underlying instants do). -/
structure SensorRecord where
  id : String
  user : String
  food : Option String
  status : Option String
  nh3 : Option Rat
  rgb : Option (List Int)
  createdAt : String
deriving DecidableEq, Repr

/-- A raw `images_data` document as read back by `get_history`. -/
structure ImageRecord where
  id : String
  user : String
  food : Option String
  status : Option String
  createdAt : String
deriving DecidableEq, Repr

/-- The common shape `get_history` converts both record kinds into.
An absent key (`nh3`/`rgb` on image items) is modelled as `none`. -/
structure HistoryItem where
  id : String
  type : String
  food : Option String
  status : Option String
  nh3 : Option Rat
  rgb : Option (List Int)
  createdAt : String
deriving DecidableEq, Repr

/-- A `calendar_events` document. -/
structure CalendarDoc where
  id : String
  user : String
  title : String
  start : String
  eventEnd : Option String
  notes : Option String
  createdAt : String
deriving DecidableEq, Repr

/-- A `blogs` document (legacy records may lack `user`). -/
structure BlogDoc where
  id : String
  user : Option String
  title : Option String
  content : Option String
  category : Option String
  author : Option String
  readTime : Option String
  tags : Option (List String)
  image : Option String
  createdAt : Option String
deriving DecidableEq, Repr

/-- The shaped dictionary `get_blog` returns. -/
structure BlogView where
  id : String
  title : Option String
  content : Option String
  category : Option String
  author : Option String
  readTime : Option String
  tags : List String
  image : String
  createdAt : Option String
deriving DecidableEq, Repr

/-- A `calc_records` document; `value`/`kind` are optional because
`calc_summary` reads them defensively with `d.get`. -/
structure CalcRecord where
  user : String
  food : String
  value : Option Rat
  kind : Option String
  date : DateTime
  createdAt : DateTime
deriving DecidableEq, Repr

/-- The month-to-date summary dictionary `calc_summary` returns.
Datetime-valued outputs are carried as `DateTime` (the code renders them
with `isoformat` at the boundary). -/
structure CalcSummary where
  latestFood : Option String
  currentTotalCost : Rat
  totalBonus : Rat
  netAmount : Rat
  lastUpdatedDate : Option DateTime
  monthStartDate : Option DateTime
  billPrintedDate : Option DateTime
  remainingDays : Option Int
deriving DecidableEq, Repr

/-! ### Record writers -/

/-- Model of `insert_sensor_result`: degraded mode short-circuits to an absent id;
numeric fields are coerced by `float`/`int` while building the document
(outside any `try`, so a failed coercion propagates as an exception,
modelled by `Except.error`); a store error on the insert itself is caught
and yields `none` (modelled by `writeOk = false`). The returned `some doc`
stands for a successful insert of `doc` with its id. -/
def insert_sensor_result (sensors : Option Unit) (writeOk : Bool)
    (currentUser : String) (user : Option String) (nh3 : PyVal)
    (rgb : List PyVal) (c : PyVal) (food status : Option String)
    (source : String) (deviceId : Option String)
    (createdAt : Option DateTime) (now : DateTime) :
    Except String (Option SensorDoc) :=
  match sensors with
  | none => .ok none
  | some _ => do
    let nh3v ← pyToFloat nh3
    let rgbv ← coerceIntList rgb
    let cv ← pyToInt c
    let doc : SensorDoc :=
      { user := pyOrStr user currentUser
        deviceId := deviceId
        nh3 := nh3v
        rgb := rgbv
        c := cv
        food := food
        status := status
        source := source
        createdAt := createdAt.getD now }
    if writeOk then .ok (some doc) else .ok none

/-- Model of `add_thought`: stores the supplied text unchanged. -/
def add_thought_text (thoughts : Option Unit) (text : List Char) :
    Option (List Char) :=
  match thoughts with
  | none => none
  | some _ => some text

/-- The text-processing pipeline of the `/thoughts/add` endpoint
(`thoughts_add` in `Notify_Alerts.py`): strip, reject empty, cap at 60
words by re-joining the first 60 `split()` pieces, then store via
`add_thought`. The `Except.error` is the endpoint's `BadRequestError`. -/
def thoughts_add_stored (input : List Char) : Except String (List Char) :=
  let text := stripChars input
  if text = [] then .error "BadRequestError: text is required"
  else if 60 < (pyWords text).length then
    .ok (unwords ((pyWords text).take 60))
  else .ok text

/-- Model of `add_calc_record`: the effective date comes from
`datetime.fromisoformat(date_iso.replace("Z", "+00:00"))`, a stdlib parser
treated here as an oracle — `parsedDate` is its outcome, `none` meaning
the parse raised, in which case the code falls back to `now`. `float(value)`
happens while building the document, outside the insert's `try`. Invalid
kinds coerce to `"entry"`. -/
def add_calc_record (calcRecords : Option Unit) (writeOk : Bool)
    (currentUser : String) (user food : String) (value : PyVal)
    (kind : String) (parsedDate : Option DateTime) (now : DateTime) :
    Except String (Option CalcRecord) :=
  match calcRecords with
  | none => .ok none
  | some _ => do
    let whenDate := parsedDate.getD now
    let v ← pyToFloat value
    let doc : CalcRecord :=
      { user := if user = "" then currentUser else user
        food := food
        value := some v
        kind := some (if kind = "entry" || kind = "bonus" then kind else "entry")
        date := whenDate
        createdAt := now }
    if writeOk then .ok (some doc) else .ok none

/-! ### Deletes and point lookups -/

/-- Model of `delete_one`: remove the first document matching the filter, if any. -/
def deleteFirst {α : Type} (p : α → Bool) : List α → Option (List α)
  | [] => none
  | d :: ds =>
    if p d then some ds else (deleteFirst p ds).map (fun t => d :: t)

/-- Model of `delete_calendar_event`: its filter is `{_id: oid, user: current_user}`.
Returns `deleted_count > 0` and the resulting collection. -/
def delete_calendar_event (events : Option (List CalendarDoc))
    (currentUser : String) (eventId : String) :
    Bool × Option (List CalendarDoc) :=
  match events with
  | none => (false, none)
  | some docs =>
    match oidOf eventId with
    | none => (false, some docs)
    | some oid =>
      match deleteFirst (fun d => d.id = oid && d.user = currentUser) docs with
      | none => (false, some docs)
      | some rest => (true, some rest)

/-- Model of `delete_blog`: its filter is `{_id: oid}` alone — no owner condition. -/
def delete_blog (blogs : Option (List BlogDoc)) (blogId : String) :
    Bool × Option (List BlogDoc) :=
  match blogs with
  | none => (false, none)
  | some docs =>
    match oidOf blogId with
    | none => (false, some docs)
    | some oid =>
      match deleteFirst (fun d => d.id = oid) docs with
      | none => (false, some docs)
      | some rest => (true, some rest)

/-- Model of `get_blog`: parse the identifier, point-look-up, shape the result. -/
def get_blog (blogs : Option (List BlogDoc)) (blogId : String) :
    Option BlogView :=
  match blogs with
  | none => none
  | some docs =>
    match oidOf blogId with
    | none => none
    | some oid =>
      match docs.find? (fun d => d.id = oid) with
      | none => none
      | some d =>
        some { id := d.id
               title := d.title
               content := d.content
               category := d.category
               author := d.author
               readTime := d.readTime
               tags := d.tags.getD []
               image := d.image.getD ""
               createdAt := d.createdAt }

/-! ### The unified history view (`get_history`) -/

def sensorToHistory (d : SensorRecord) : HistoryItem :=
  { id := d.id
    type := "sensor"
    food := some (pyOrStr d.food "General_Food")
    status := some (pyOrStr d.status "-")
    nh3 := d.nh3
    rgb := d.rgb
    createdAt := d.createdAt }

def imageToHistory (d : ImageRecord) : HistoryItem :=
  { id := d.id
    type := "image"
    food := d.food
    status := d.status
    nh3 := none
    rgb := none
    createdAt := d.createdAt }

/-- The two telemetry collections `get_history` draws from. -/
structure HistoryDB where
  sensors : List SensorRecord
  images : List ImageRecord

/-- The store's `sort("createdAt", DESCENDING)` on sensor documents. -/
def sensorDesc (a b : SensorRecord) : Prop := strLe b.createdAt a.createdAt

instance : DecidableRel sensorDesc := fun a b =>
  inferInstanceAs (Decidable (strLe b.createdAt a.createdAt = true))

/-- The store's `sort("createdAt", DESCENDING)` on image documents. -/
def imageDesc (a b : ImageRecord) : Prop := strLe b.createdAt a.createdAt

instance : DecidableRel imageDesc := fun a b =>
  inferInstanceAs (Decidable (strLe b.createdAt a.createdAt = true))

/-- The in-process re-sort key order of `get_history`
(`key=lambda x: x.get("createdAt") or ""`, `reverse=True`). -/
def histItemDesc (a b : HistoryItem) : Prop := strLe b.createdAt a.createdAt

instance : DecidableRel histItemDesc := fun a b =>
  inferInstanceAs (Decidable (strLe b.createdAt a.createdAt = true))

/-- The concatenation of the two converted, store-sorted, capped result
sets. -/
def historyItems (db : HistoryDB) (user : String) (limit : Nat) :
    List HistoryItem :=
  ((List.insertionSort sensorDesc
      (db.sensors.filter (fun d => d.user = user))).take limit).map
    sensorToHistory ++
  ((List.insertionSort imageDesc
      (db.images.filter (fun d => d.user = user))).take limit).map
    imageToHistory

/-- Model of `get_history`: query each telemetry collection for the owner
(store-sorted by `createdAt` descending, capped at `limit`), convert to
the common shape, concatenate, re-sort the concatenation by timestamp
descending (`items.sort(key=..., reverse=True)`), truncate to `limit`. -/
def get_history (db : Option HistoryDB) (user : String) (limit : Nat) :
    List HistoryItem :=
  match db with
  | none => []
  | some db =>
    (List.insertionSort histItemDesc (historyItems db user limit)).take limit

/-- Adjacent strict descent of history timestamps (with transitivity this
is strict timestamp-descending order). -/
def strictDescChain : List HistoryItem → Bool
  | [] => true
  | [_] => true
  | a :: b :: t => strLt b.createdAt a.createdAt && strictDescChain (b :: t)

/-! ### The rolling month-to-date summary (`calc_summary`) -/

/-- Python `now.replace(day=1, hour=0, minute=0, second=0, microsecond=0)`. -/
def monthStartOf (now : DateTime) : DateTime :=
  { now with day := 1, hour := 0, minute := 0, second := 0, micro := 0 }

/-- First instant of the next month, with the December→January rollover. -/
def nextMonthStartOf (now : DateTime) : DateTime :=
  let ms := monthStartOf now
  if ms.month = 12 then { ms with year := ms.year + 1, month := 1 }
  else { ms with month := ms.month + 1 }

/-- The all-zero/null summary returned when the collection handle is
absent. -/
def emptyCalcSummary : CalcSummary :=
  { latestFood := none
    currentTotalCost := 0
    totalBonus := 0
    netAmount := 0
    lastUpdatedDate := none
    monthStartDate := none
    billPrintedDate := none
    remainingDays := none }

/-- Python `round(x)` to an integer: round half to even. -/
def roundHalfEven (q : Rat) : Int :=
  let f := ⌊q⌋
  if q - (f : Rat) < 1/2 then f
  else if (1 : Rat)/2 < q - (f : Rat) then f + 1
  else if f % 2 = 0 then f else f + 1

/-- Python `round(x, 2)`. -/
def round2 (q : Rat) : Rat := ((roundHalfEven (q * 100) : Rat)) / 100

/-- The `$gte month_start` / `$lt next_month_start` window filter. -/
def inMonthWindow (ms nxt : DateTime) (d : CalcRecord) : Bool :=
  ms.toMicros ≤ d.date.toMicros && d.date.toMicros < nxt.toMicros

/-- The single walk of `calc_summary`: `float(d.get("value", 0) or 0)`
accumulated into the bonus total iff `d.get("kind") == "bonus"`, else into
the entry total. -/
def walkTotals (rs : List CalcRecord) : Rat × Rat :=
  rs.foldl
    (fun acc d =>
      let v := (d.value.getD 0)
      if d.kind = some "bonus" then (acc.1, acc.2 + v) else (acc.1 + v, acc.2))
    (0, 0)

/-- The records the summary's `find` returns, before sorting: owner match
plus the effective-date window. -/
def monthWindowRecords (records : List CalcRecord) (now : DateTime)
    (user : String) : List CalcRecord :=
  records.filter
    (fun d => d.user = user &&
      inMonthWindow (monthStartOf now) (nextMonthStartOf now) d)

/-- The store's `sort("date", DESCENDING)` order. -/
def calcDateDesc (a b : CalcRecord) : Prop :=
  b.date.toMicros ≤ a.date.toMicros

instance : DecidableRel calcDateDesc := fun a b =>
  inferInstanceAs (Decidable (b.date.toMicros ≤ a.date.toMicros))

/-- The cursor `calc_summary` walks: window records, date-descending. -/
def sortedWindow (records : List CalcRecord) (now : DateTime)
    (user : String) : List CalcRecord :=
  List.insertionSort calcDateDesc (monthWindowRecords records now user)

/-- The classification used by the walk: `d.get("kind") == "bonus"`. -/
def isBonus (d : CalcRecord) : Bool := d.kind = some "bonus"

/-- Sum of walked values over the records classified as entries. -/
def entrySum (rs : List CalcRecord) : Rat :=
  ((rs.filter (fun d => !isBonus d)).map (fun d => d.value.getD 0)).sum

/-- Sum of walked values over the records classified as bonuses. -/
def bonusSum (rs : List CalcRecord) : Rat :=
  ((rs.filter isBonus).map (fun d => d.value.getD 0)).sum

/-- Model of `calc_summary`. Here `calcRecords = none` is the absent collection handle;
`some (.error ())` is a `find` that raises (caught, logged, fallback
shape); `some (.ok records)` is the collection contents, which the model
filters and sorts as the store would. -/
def calc_summary (calcRecords : Option (Except Unit (List CalcRecord)))
    (now : DateTime) (user : String) : CalcSummary :=
  match calcRecords with
  | none => emptyCalcSummary
  | some qres =>
    let month_start := monthStartOf now
    let next_month_start := nextMonthStartOf now
    match qres with
    | .error _ =>
      { emptyCalcSummary with
        monthStartDate := some month_start
        remainingDays := some (dateDiffDays next_month_start now) }
    | .ok records =>
      let cur := sortedWindow records now user
      let totals := walkTotals cur
      let net := totals.1 + totals.2
      { latestFood := cur.head?.map (fun d => d.food)
        currentTotalCost := round2 totals.1
        totalBonus := round2 totals.2
        netAmount := round2 net
        lastUpdatedDate := cur.head?.map (fun d => d.date)
        monthStartDate := some month_start
        billPrintedDate := none
        remainingDays := some (dateDiffDays next_month_start now) }

/-! ### Sample concrete data -/

def sampleOid : String := "0123456789abcdef01234567"

def blogByAlice : BlogDoc :=
  { id := sampleOid, user := some "alice", title := some "t",
    content := some "c", category := none, author := none, readTime := none,
    tags := none, image := none, createdAt := none }

def dec20 : DateTime := ⟨2024, 12, 20, 15, 30, 0, 0⟩

def jan25 : DateTime := ⟨2024, 1, 25, 12, 0, 0, 0⟩

def ledgerJan15 : CalcRecord :=
  { user := "chamika", food := "rice", value := some 20,
    kind := some "entry", date := ⟨2024, 1, 15, 0, 0, 0, 0⟩,
    createdAt := ⟨2024, 1, 15, 0, 0, 0, 0⟩ }

def ledgerJan20 : CalcRecord :=
  { user := "chamika", food := "tea", value := some (-5),
    kind := some "bonus", date := ⟨2024, 1, 20, 0, 0, 0, 0⟩,
    createdAt := ⟨2024, 1, 20, 0, 0, 0, 0⟩ }

def ledgerFeb01 : CalcRecord :=
  { user := "chamika", food := "oil", value := some 99,
    kind := some "entry", date := ⟨2024, 2, 1, 0, 0, 0, 0⟩,
    createdAt := ⟨2024, 2, 1, 0, 0, 0, 0⟩ }

def sens1 : SensorRecord :=
  { id := "s1", user := "chamika", food := some "milk",
    status := some "Fresh", nh3 := some 12, rgb := some [1, 2, 3],
    createdAt := "2024-01-10T00:00:00+00:00" }

def sens2 : SensorRecord :=
  { id := "s2", user := "chamika", food := some "fish",
    status := some "Spoiled", nh3 := some 80, rgb := some [4, 5, 6],
    createdAt := "2024-01-08T00:00:00+00:00" }

def sens3 : SensorRecord :=
  { id := "s3", user := "chamika", food := none, status := none,
    nh3 := some 7, rgb := some [7, 8, 9],
    createdAt := "2024-01-06T00:00:00+00:00" }

def img1 : ImageRecord :=
  { id := "i1", user := "chamika", food := some "banana",
    status := some "Spoiled", createdAt := "2024-01-09T00:00:00+00:00" }

def img2 : ImageRecord :=
  { id := "i2", user := "chamika", food := some "apple",
    status := some "Fresh", createdAt := "2024-01-07T00:00:00+00:00" }

def histSample : HistoryDB :=
  { sensors := [sens1, sens2, sens3], images := [img1, img2] }

/-! ### Word-splitting lemmas -/

theorem pyWords_nil : pyWords [] = [] := by
  rw [pyWords]

theorem takeWhile_append_of_all {p : Char → Bool} {u : List Char}
    (h : ∀ x ∈ u, p x) (v : List Char) :
    (u ++ v).takeWhile p = u ++ v.takeWhile p := by
  induction u with
  | nil => simp
  | cons a u ih =>
    have ha : p a := h a (List.mem_cons_self a u)
    have ih' := ih fun x hx => h x (List.mem_cons_of_mem a hx)
    simp [List.takeWhile_cons, ha, ih']

theorem dropWhile_append_of_all {p : Char → Bool} {u : List Char}
    (h : ∀ x ∈ u, p x) (v : List Char) :
    (u ++ v).dropWhile p = v.dropWhile p := by
  induction u with
  | nil => simp
  | cons a u ih =>
    have ha : p a := h a (List.mem_cons_self a u)
    have ih' := ih fun x hx => h x (List.mem_cons_of_mem a hx)
    simp [List.dropWhile_cons, ha, ih']

theorem takeWhile_append_of_stop {p : Char → Bool} {u : List Char}
    (h : u.dropWhile p ≠ []) (v : List Char) :
    (u ++ v).takeWhile p = u.takeWhile p := by
  induction u with
  | nil => simp at h
  | cons a u ih =>
    by_cases ha : p a
    · simp only [List.dropWhile_cons, ha, if_true] at h
      simp only [List.cons_append, List.takeWhile_cons, ha, if_true]
      rw [ih h]
    · simp [List.takeWhile_cons, ha]

theorem dropWhile_append_of_stop {p : Char → Bool} {u : List Char}
    (h : u.dropWhile p ≠ []) (v : List Char) :
    (u ++ v).dropWhile p = u.dropWhile p ++ v := by
  induction u with
  | nil => simp at h
  | cons a u ih =>
    by_cases ha : p a
    · simp only [List.dropWhile_cons, ha, if_true] at h
      simp only [List.cons_append, List.dropWhile_cons, ha, if_true]
      exact ih h
    · simp [List.dropWhile_cons, ha]

theorem takeWhile_nonWs_of_all_ws {v : List Char} (h : ∀ c ∈ v, wsChar c) :
    v.takeWhile (fun d => !wsChar d) = [] := by
  cases v with
  | nil => rfl
  | cons a v =>
    have := h a (List.mem_cons_self a v)
    simp [List.takeWhile_cons, this]

theorem dropWhile_nonWs_of_all_ws {v : List Char} (h : ∀ c ∈ v, wsChar c) :
    v.dropWhile (fun d => !wsChar d) = v := by
  cases v with
  | nil => rfl
  | cons a v =>
    have := h a (List.mem_cons_self a v)
    simp [List.dropWhile_cons, this]

theorem pyWords_all_ws {v : List Char} (h : ∀ c ∈ v, wsChar c) :
    pyWords v = [] := by
  induction v with
  | nil => exact pyWords_nil
  | cons a v ih =>
    have ha := h a (List.mem_cons_self a v)
    rw [pyWords]
    simp only [ha, if_true]
    exact ih fun c hc => h c (List.mem_cons_of_mem a hc)

theorem pyWords_word_nil {w : List Char} (hne : w ≠ [])
    (hw : ∀ c ∈ w, wsChar c = false) : pyWords w = [w] := by
  cases w with
  | nil => exact absurd rfl hne
  | cons c w =>
    have hc := hw c (List.mem_cons_self c w)
    have hall : ∀ x ∈ w, (fun d => !wsChar d) x = true := by
      intro x hx
      simp [hw x (List.mem_cons_of_mem c hx)]
    rw [pyWords]
    simp only [hc, Bool.false_eq_true, if_false]
    have ht : w.takeWhile (fun d => !wsChar d) = w := by
      have := takeWhile_append_of_all hall []
      simpa using this
    have hd : w.dropWhile (fun d => !wsChar d) = [] := by
      have := dropWhile_append_of_all hall []
      simpa using this
    rw [ht, hd, pyWords_nil]

theorem pyWords_word_space {w rest : List Char} (hne : w ≠ [])
    (hw : ∀ c ∈ w, wsChar c = false) :
    pyWords (w ++ ' ' :: rest) = w :: pyWords rest := by
  cases w with
  | nil => exact absurd rfl hne
  | cons c w =>
    have hc := hw c (List.mem_cons_self c w)
    have hall : ∀ x ∈ w, (fun d => !wsChar d) x = true := by
      intro x hx
      simp [hw x (List.mem_cons_of_mem c hx)]
    rw [List.cons_append, pyWords]
    simp only [hc, Bool.false_eq_true, if_false]
    rw [takeWhile_append_of_all hall, dropWhile_append_of_all hall]
    have hsp : wsChar ' ' = true := by decide
    simp only [List.takeWhile_cons, hsp, Bool.not_true, Bool.false_eq_true, if_false,
      List.append_nil, List.dropWhile_cons]
    rw [pyWords]
    simp [hsp]

/-- Well-formedness of split output: every produced word is nonempty and
whitespace-free. -/
theorem pyWords_wf (s : List Char) :
    ∀ w ∈ pyWords s, w ≠ [] ∧ ∀ c ∈ w, wsChar c = false := by
  induction s using pyWords.induct with
  | case1 => intro w hw; simp [pyWords] at hw
  | case2 c cs hc ih =>
    intro w hw
    rw [pyWords] at hw
    simp only [hc, if_true] at hw
    exact ih w hw
  | case3 c cs hc ih =>
    intro w hw
    rw [pyWords] at hw
    simp only [hc, if_false] at hw
    rcases List.mem_cons.mp hw with h | h
    · subst h
      refine ⟨by simp, ?_⟩
      intro x hx
      rcases List.mem_cons.mp hx with h | h
      · subst h
        simpa using hc
      · have := List.mem_takeWhile_imp h
        simpa using this
    · exact ih w h

theorem pyWords_append_all_ws {u v : List Char} (hv : ∀ c ∈ v, wsChar c) :
    pyWords (u ++ v) = pyWords u := by
  induction u using pyWords.induct with
  | case1 =>
    rw [List.nil_append, pyWords_nil]
    exact pyWords_all_ws hv
  | case2 c cs hc ih =>
    rw [List.cons_append, pyWords]
    simp only [hc, if_true]
    rw [ih]
    rw [pyWords]
    simp [hc]
  | case3 c cs hc ih =>
    rw [List.cons_append, pyWords]
    simp only [hc, if_false]
    by_cases hstop : cs.dropWhile (fun d => !wsChar d) = []
    · have hall : ∀ x ∈ cs, (fun d => !wsChar d) x = true :=
        List.dropWhile_eq_nil_iff.mp hstop
      rw [takeWhile_append_of_all hall, takeWhile_nonWs_of_all_ws hv,
        List.append_nil, dropWhile_append_of_all hall,
        dropWhile_nonWs_of_all_ws hv, pyWords_all_ws hv]
      rw [pyWords]
      simp only [hc, Bool.false_eq_true, if_false, hstop, pyWords_nil]
      rw [List.takeWhile_eq_self_iff.mpr hall]
    · rw [takeWhile_append_of_stop hstop, dropWhile_append_of_stop hstop, ih]
      rw [pyWords]
      simp [hc]

theorem pyWords_lstrip (s : List Char) : pyWords (lstripChars s) = pyWords s := by
  induction s with
  | nil => simp [lstripChars]
  | cons c cs ih =>
    by_cases hc : wsChar c
    · rw [lstripChars, List.dropWhile_cons]
      simp only [hc, if_true]
      rw [← lstripChars, ih, pyWords]
      simp [hc]
    · rw [lstripChars, List.dropWhile_cons]
      simp [hc]

theorem pyWords_rstrip (s : List Char) : pyWords (rstripChars s) = pyWords s := by
  have hdecomp : s = rstripChars s ++ (s.reverse.takeWhile wsChar).reverse := by
    rw [rstripChars, ← List.reverse_append, List.takeWhile_append_dropWhile,
      List.reverse_reverse]
  have htrail : ∀ c ∈ (s.reverse.takeWhile wsChar).reverse, wsChar c := by
    intro c hcin
    rw [List.mem_reverse] at hcin
    exact List.mem_takeWhile_imp hcin
  conv_rhs => rw [hdecomp]
  rw [pyWords_append_all_ws htrail]

theorem pyWords_strip (s : List Char) : pyWords (stripChars s) = pyWords s := by
  rw [stripChars, pyWords_lstrip, pyWords_rstrip]

/-- Python `" ".join` of well-formed words splits back to exactly those
words. -/
theorem pyWords_unwords {ws : List (List Char)}
    (h : ∀ w ∈ ws, w ≠ [] ∧ ∀ c ∈ w, wsChar c = false) :
    pyWords (unwords ws) = ws := by
  induction ws with
  | nil => exact pyWords_nil
  | cons w rest ih =>
    cases rest with
    | nil =>
      have hw := h w (List.mem_cons_self w [])
      rw [unwords]
      exact pyWords_word_nil hw.1 hw.2
    | cons v rest2 =>
      have hw := h w (List.mem_cons_self w (v :: rest2))
      have hu : unwords (w :: v :: rest2) = w ++ ' ' :: unwords (v :: rest2) := rfl
      rw [hu, pyWords_word_space hw.1 hw.2]
      rw [ih fun x hx => h x (List.mem_cons_of_mem w hx)]

/-! ### String order lemmas -/

theorem lexLe_total (a b : List Char) : lexLe a b || lexLe b a := by
  induction a generalizing b with
  | nil => simp [lexLe]
  | cons x xs ih =>
    cases b with
    | nil => simp [lexLe]
    | cons y ys =>
      by_cases h1 : x.toNat < y.toNat
      · simp [lexLe, h1]
      · by_cases h2 : y.toNat < x.toNat
        · simp [lexLe, h1, h2]
        · simp only [lexLe, if_neg h1, if_neg h2]
          exact ih ys

theorem lexLe_trans {a b c : List Char}
    (hab : lexLe a b = true) (hbc : lexLe b c = true) : lexLe a c = true := by
  induction a generalizing b c with
  | nil => simp [lexLe]
  | cons x xs ih =>
    cases b with
    | nil => simp [lexLe] at hab
    | cons y ys =>
      cases c with
      | nil => simp [lexLe] at hbc
      | cons z zs =>
        simp only [lexLe] at hab hbc ⊢
        by_cases hxy : x.toNat < y.toNat
        · by_cases hyz : y.toNat < z.toNat
          · have : x.toNat < z.toNat := Nat.lt_trans hxy hyz
            simp [this]
          · by_cases hzy : z.toNat < y.toNat
            · simp [hyz, hzy] at hbc
            · have hyez : y.toNat = z.toNat := Nat.le_antisymm
                (Nat.le_of_not_lt hzy) (Nat.le_of_not_lt hyz)
              have : x.toNat < z.toNat := hyez ▸ hxy
              simp [this]
        · by_cases hyx : y.toNat < x.toNat
          · simp [hxy, hyx] at hab
          · have hxey : x.toNat = y.toNat := Nat.le_antisymm
              (Nat.le_of_not_lt hyx) (Nat.le_of_not_lt hxy)
            by_cases hyz : y.toNat < z.toNat
            · have : x.toNat < z.toNat := hxey ▸ hyz
              simp [this]
            · by_cases hzy : z.toNat < y.toNat
              · simp [hyz, hzy] at hbc
              · have hxz : ¬ x.toNat < z.toNat := by
                  rw [hxey]; exact hyz
                have hzx : ¬ z.toNat < x.toNat := by
                  rw [hxey]; exact hzy
                simp only [if_neg hxy, if_neg hyx] at hab
                simp only [if_neg hyz, if_neg hzy] at hbc
                simp only [if_neg hxz, if_neg hzx]
                exact ih hab hbc

theorem strLe_total (a b : String) : strLe a b || strLe b a :=
  lexLe_total a.data b.data

theorem strLe_trans {a b c : String}
    (hab : strLe a b = true) (hbc : strLe b c = true) : strLe a c = true :=
  lexLe_trans hab hbc

/-! ### Helper lemmas -/

theorem deleteFirst_isSome_iff {α : Type} (p : α → Bool) (l : List α) :
    (deleteFirst p l).isSome ↔ ∃ d ∈ l, p d := by
  induction l with
  | nil => simp [deleteFirst]
  | cons a l ih =>
    by_cases ha : p a
    · simp [deleteFirst, ha]
    · simp only [deleteFirst, ha, Bool.false_eq_true, if_false,
        Option.isSome_map', List.mem_cons]
      rw [ih]
      constructor
      · rintro ⟨d, hd, hpd⟩
        exact ⟨d, Or.inr hd, hpd⟩
      · rintro ⟨d, hd | hd, hpd⟩
        · subst hd; exact absurd hpd ha
        · exact ⟨d, hd, hpd⟩

theorem oidOf_eq_some {s t : String} (h : oidOf s = some t) : t = s := by
  unfold oidOf at h
  by_cases hc : (s.length = 24 && s.data.all isHexDigitChar) = true
  · rw [if_pos hc] at h
    exact (Option.some.injEq _ _ ▸ h).symm
  · rw [if_neg hc] at h
    exact absurd h (by simp)

/-! ### C6: malformed identifiers -/

/-- C6: a string that does not parse as an `ObjectId` makes every
point-lookup return "not found" (`none`) and every delete return `false`,
with no error raised (the model's functions return values on every such
input). -/
theorem malformed_id_not_found (blogs : Option (List BlogDoc))
    (events : Option (List CalendarDoc)) (currentUser s : String)
    (h : oidOf s = none) :
    get_blog blogs s = none ∧
    (delete_blog blogs s).1 = false ∧
    (delete_calendar_event events currentUser s).1 = false := by
  refine ⟨?_, ?_, ?_⟩
  · cases blogs with
    | none => rfl
    | some docs => simp [get_blog, h]
  · cases blogs with
    | none => rfl
    | some docs => simp [delete_blog, h]
  · cases events with
    | none => rfl
    | some docs => simp [delete_calendar_event, h]

theorem malformed_id_not_found_witness :
    get_blog (some [blogByAlice]) "not-an-objectid" = none ∧
    (delete_blog (some [blogByAlice]) "not-an-objectid").1 = false ∧
    (delete_calendar_event (some []) "chamika" "not-an-objectid").1 = false :=
  malformed_id_not_found (some [blogByAlice]) (some []) "chamika"
    "not-an-objectid" (by decide)

theorem delete_calendar_event_fst (docs : List CalendarDoc)
    (currentUser eventId : String) :
    (delete_calendar_event (some docs) currentUser eventId).1 =
      ((oidOf eventId).isSome &&
        docs.any (fun d => d.id = eventId && d.user = currentUser)) := by
  unfold delete_calendar_event
  cases hoid : oidOf eventId with
  | none => rfl
  | some oid =>
    have heq : oid = eventId := oidOf_eq_some hoid
    subst heq
    cases hdel : deleteFirst (fun d => d.id = oid && d.user = currentUser) docs with
    | none =>
      have := deleteFirst_isSome_iff
        (fun d => d.id = oid && d.user = currentUser) docs
      rw [hdel] at this
      simp only [List.any_eq_true]
      simp only [Option.isSome_none, Bool.false_eq_true, false_iff] at this
      have : ¬ docs.any (fun d => d.id = oid && d.user = currentUser) = true := by
        rw [List.any_eq_true]
        intro ⟨d, hd, hpd⟩
        exact this ⟨d, hd, hpd⟩
      simp [hdel, this]
    | some rest =>
      have := deleteFirst_isSome_iff
        (fun d => d.id = oid && d.user = currentUser) docs
      rw [hdel] at this
      simp only [Option.isSome_some, true_iff] at this
      obtain ⟨d, hd, hpd⟩ := this
      have : docs.any (fun d => d.id = oid && d.user = currentUser) = true := by
        rw [List.any_eq_true]
        exact ⟨d, hd, hpd⟩
      simp [hdel, this]

theorem delete_blog_fst (docs : List BlogDoc) (blogId : String) :
    (delete_blog (some docs) blogId).1 =
      ((oidOf blogId).isSome && docs.any (fun d => d.id = blogId)) := by
  unfold delete_blog
  cases hoid : oidOf blogId with
  | none => rfl
  | some oid =>
    have heq : oid = blogId := oidOf_eq_some hoid
    subst heq
    cases hdel : deleteFirst (fun d => d.id = oid) docs with
    | none =>
      have := deleteFirst_isSome_iff (fun d => d.id = oid) docs
      rw [hdel] at this
      simp only [Option.isSome_none, Bool.false_eq_true, false_iff] at this
      have : ¬ docs.any (fun d => d.id = oid) = true := by
        rw [List.any_eq_true]
        intro ⟨d, hd, hpd⟩
        exact this ⟨d, hd, hpd⟩
      simp [hdel, this]
    | some rest =>
      have := deleteFirst_isSome_iff (fun d => d.id = oid) docs
      rw [hdel] at this
      simp only [Option.isSome_some, true_iff] at this
      obtain ⟨d, hd, hpd⟩ := this
      have : docs.any (fun d => d.id = oid) = true := by
        rw [List.any_eq_true]
        exact ⟨d, hd, hpd⟩
      simp [hdel, this]

/-! ### C9: owner scoping of deletes -/

/-- C9: the calendar delete matches on identifier AND owner, the blog
delete on identifier alone, so a blog owned by a different user than the
configured one is still deleted. -/
theorem delete_owner_scoping :
    (∀ (docs : List CalendarDoc) (currentUser eventId : String),
      (delete_calendar_event (some docs) currentUser eventId).1 = true ↔
        (oidOf eventId).isSome ∧
          ∃ d ∈ docs, d.id = eventId ∧ d.user = currentUser) ∧
    (∀ (docs : List BlogDoc) (blogId : String),
      (delete_blog (some docs) blogId).1 = true ↔
        (oidOf blogId).isSome ∧ ∃ d ∈ docs, d.id = blogId) ∧
    (blogByAlice.user = some "alice" ∧
      (delete_blog (some [blogByAlice]) sampleOid).1 = true ∧
      (delete_blog (some [blogByAlice]) sampleOid).2 = some []) := by
  refine ⟨?_, ?_, ?_, ?_, ?_⟩
  · intro docs currentUser eventId
    rw [delete_calendar_event_fst]
    simp [List.any_eq_true, and_assoc]
  · intro docs blogId
    rw [delete_blog_fst]
    simp [List.any_eq_true]
  · rfl
  · decide
  · decide

/-! ### C4: degraded mode and failed queries -/

/-- C4 counterexample: when the `find` query fails (is caught), the
summary is NOT all-zero/null — `monthStartDate` and `remainingDays` are
computed, e.g. `remainingDays = 12` as of 2024-12-20. -/
theorem summary_query_fail_not_all_null :
    (calc_summary (some (.error ())) dec20 "chamika").remainingDays = some 12 ∧
    (calc_summary (some (.error ())) dec20 "chamika").monthStartDate ≠ none := by
  constructor
  · decide
  · decide

/-- C4 (amended): with the collection handle absent every read returns its
empty/zero-null shape and every write an absent identifier; with a failed
(caught) query the summary keeps the zero/null monetary and item fields
but carries the computed `monthStartDate` and `remainingDays`. No
operation raises (each model function returns a value on these paths). -/
theorem degraded_mode_shapes :
    (∀ now u, calc_summary none now u = emptyCalcSummary) ∧
    (∀ now u, calc_summary (some (.error ())) now u =
      { emptyCalcSummary with
          monthStartDate := some (monthStartOf now)
          remainingDays := some (dateDiffDays (nextMonthStartOf now) now) }) ∧
    (∀ wOk cu user nh3 rgb c food status source dev ca now,
      insert_sensor_result none wOk cu user nh3 rgb c food status source
        dev ca now = .ok none) ∧
    (∀ cu user q cv food status source dev ca now,
      insert_sensor_result (some ()) false cu user (.pyFloat q)
        [] (.pyInt cv) food status source dev ca now = .ok none) ∧
    (∀ u n, get_history none u n = []) ∧
    (∀ wOk cu u f v k pd now,
      add_calc_record none wOk cu u f v k pd now = .ok none) ∧
    (∀ text, add_thought_text none text = none) := by
  refine ⟨fun _ _ => rfl, fun _ _ => rfl, fun _ _ _ _ _ _ _ _ _ _ _ _ => rfl,
    fun _ _ _ _ _ _ _ _ _ _ => rfl,
    fun _ _ => rfl, fun _ _ _ _ _ _ _ _ => rfl, fun _ => rfl⟩

/-! ### C5: numeric coercion on insert -/

/-- C5 counterexample: an uncoercible numeric input is not stored as null;
the document construction happens outside the `try`, so `float("abc")`
(resp. `float(None)`) raises out of the insert call. -/
theorem insert_uncoercible_raises :
    insert_sensor_result (some ()) true "chamika" none (.pyStr "abc")
        [.pyInt 1, .pyInt 2, .pyInt 3] (.pyInt 0) none none "live" none none
        dec20 =
      .error "ValueError: could not convert string to float" ∧
    add_calc_record (some ()) true "chamika" "u" "rice" .pyNone "entry"
        none dec20 =
      .error "TypeError: float() argument must not be None" := by
  constructor
  · rfl
  · rfl

/-- C5 (amended): coercible numeric inputs are coerced to their declared
numeric type in the stored document; an uncoercible input makes the
insert call raise to the caller (it is neither stored raw nor stored as
null). -/
theorem insert_numeric_coercion (cu : String) (user : Option String)
    (nh3 : PyVal) (rgb : List PyVal) (c : PyVal) (food status : Option String)
    (source : String) (dev : Option String) (ca : Option DateTime)
    (now : DateTime) (u f : String) (v : PyVal) (k : String)
    (pd : Option DateTime) :
    (∀ q rs cv, pyToFloat nh3 = .ok q → coerceIntList rgb = .ok rs →
      pyToInt c = .ok cv →
      insert_sensor_result (some ()) true cu user nh3 rgb c food status
          source dev ca now =
        .ok (some { user := pyOrStr user cu, deviceId := dev, nh3 := q,
                    rgb := rs, c := cv, food := food, status := status,
                    source := source, createdAt := ca.getD now })) ∧
    (∀ e, pyToFloat nh3 = .error e →
      insert_sensor_result (some ()) true cu user nh3 rgb c food status
          source dev ca now = .error e) ∧
    (∀ q, pyToFloat v = .ok q →
      ∃ doc, add_calc_record (some ()) true cu u f v k pd now =
        .ok (some doc) ∧ doc.value = some q) ∧
    (∀ e, pyToFloat v = .error e →
      add_calc_record (some ()) true cu u f v k pd now = .error e) := by
  refine ⟨?_, ?_, ?_, ?_⟩
  · intro q rs cv h1 h2 h3
    simp only [insert_sensor_result, h1, h2, h3]
    rfl
  · intro e h1
    simp only [insert_sensor_result, h1]
    rfl
  · intro q h1
    refine ⟨{ user := if u = "" then cu else u, food := f, value := some q,
              kind := some (if k = "entry" || k = "bonus" then k else "entry"),
              date := pd.getD now, createdAt := now }, ?_, rfl⟩
    simp only [add_calc_record, h1]
    rfl
  · intro e h1
    simp only [add_calc_record, h1]
    rfl

theorem insert_numeric_coercion_witness :
    insert_sensor_result (some ()) true "chamika" (some "bob")
        (.pyFloat (157/10)) [.pyInt 120, .pyInt 30, .pyInt 9] (.pyInt 2)
        (some "milk") (some "Fresh") "live" none none dec20 =
      .ok (some { user := pyOrStr (some "bob") "chamika", deviceId := none,
                  nh3 := 157/10, rgb := [120, 30, 9], c := 2,
                  food := some "milk", status := some "Fresh",
                  source := "live", createdAt := Option.none.getD dec20 }) :=
  (insert_numeric_coercion "chamika" (some "bob") (.pyFloat (157/10))
      [.pyInt 120, .pyInt 30, .pyInt 9] (.pyInt 2) (some "milk")
      (some "Fresh") "live" none none dec20 "u" "f" (.pyInt 0) "entry"
      none).1 (157/10) [120, 30, 9] 2 rfl rfl rfl

/-! ### C8: ledger kind coercion and date fallback -/

/-- C8: an invalid ledger kind is stored as `"entry"`; a failed
ISO-8601-like parse of the effective date falls back to `now`; the stored
document always carries both the effective date and a creation
timestamp. -/
theorem ledger_kind_and_date_fallback (cu u f : String) (v : PyVal)
    (k : String) (pd : Option DateTime) (now : DateTime) (q : Rat)
    (hv : pyToFloat v = .ok q) :
    ∃ doc, add_calc_record (some ()) true cu u f v k pd now =
        .ok (some doc) ∧
      (k ≠ "entry" ∧ k ≠ "bonus" → doc.kind = some "entry") ∧
      (k = "entry" ∨ k = "bonus" → doc.kind = some k) ∧
      (pd = none → doc.date = now) ∧
      (∀ d, pd = some d → doc.date = d) ∧
      doc.createdAt = now := by
  refine ⟨{ user := if u = "" then cu else u, food := f, value := some q,
            kind := some (if k = "entry" || k = "bonus" then k else "entry"),
            date := pd.getD now, createdAt := now }, ?_, ?_, ?_, ?_, ?_, rfl⟩
  · simp only [add_calc_record, hv]
    rfl
  · intro ⟨h1, h2⟩
    simp [h1, h2]
  · intro h
    rcases h with h | h <;> simp [h]
  · intro h
    simp [h]
  · intro d h
    simp [h]

theorem ledger_kind_and_date_fallback_witness :
    ∃ doc, add_calc_record (some ()) true "chamika" "u" "rice"
        (.pyInt 12) "junk-kind" none dec20 = .ok (some doc) ∧
      ("junk-kind" ≠ "entry" ∧ "junk-kind" ≠ "bonus" →
        doc.kind = some "entry") ∧
      ("junk-kind" = "entry" ∨ "junk-kind" = "bonus" →
        doc.kind = some "junk-kind") ∧
      ((none : Option DateTime) = none → doc.date = dec20) ∧
      (∀ d, (none : Option DateTime) = some d → doc.date = d) ∧
      doc.createdAt = dec20 :=
  ledger_kind_and_date_fallback "chamika" "u" "rice" (.pyInt 12)
    "junk-kind" none dec20 12 (by rfl)

/-! ### C2: period boundaries and remaining days -/

/-- C2: with the store reachable, the summary's period starts at the
first instant of the current UTC month, the exclusive period end is the
first instant of the next month with the December rollover mapping
(year, 12) to (year+1, 1), and `remainingDays` is the day difference
between the period end's date and the current date; as of 2024-12-20 this
gives 2024-12-01, 2025-01-01 and 12 days. -/
theorem summary_period_boundaries :
    (∀ (qres : Except Unit (List CalcRecord)) (now : DateTime) (u : String),
      (calc_summary (some qres) now u).monthStartDate =
        some ⟨now.year, now.month, 1, 0, 0, 0, 0⟩ ∧
      (calc_summary (some qres) now u).remainingDays =
        some (dateDiffDays (nextMonthStartOf now) now)) ∧
    (∀ now : DateTime, nextMonthStartOf now =
      if now.month = 12 then ⟨now.year + 1, 1, 1, 0, 0, 0, 0⟩
      else ⟨now.year, now.month + 1, 1, 0, 0, 0, 0⟩) ∧
    ((calc_summary (some (.ok [])) dec20 "chamika").monthStartDate =
        some ⟨2024, 12, 1, 0, 0, 0, 0⟩ ∧
      nextMonthStartOf dec20 = ⟨2025, 1, 1, 0, 0, 0, 0⟩ ∧
      (calc_summary (some (.ok [])) dec20 "chamika").remainingDays =
        some 12) := by
  refine ⟨?_, ?_, by decide, by decide, by decide⟩
  · intro qres now u
    cases qres with
    | error e => exact ⟨rfl, rfl⟩
    | ok records => exact ⟨rfl, rfl⟩
  · intro now
    unfold nextMonthStartOf monthStartOf
    by_cases h : now.month = 12 <;> simp [h]

/-! ### Summation lemmas for the summary walk -/

theorem walkTotals_aux (rs : List CalcRecord) (a b : Rat) :
    rs.foldl
      (fun acc d =>
        let v := (d.value.getD 0)
        if d.kind = some "bonus" then (acc.1, acc.2 + v) else (acc.1 + v, acc.2))
      (a, b) = (a + entrySum rs, b + bonusSum rs) := by
  induction rs generalizing a b with
  | nil => simp [entrySum, bonusSum]
  | cons d rs ih =>
    by_cases h : d.kind = some "bonus"
    · simp only [List.foldl_cons, h, if_pos]
      rw [ih]
      have hb : isBonus d = true := by simp [isBonus, h]
      simp only [entrySum, bonusSum, List.filter_cons, hb, Bool.not_true,
        Bool.false_eq_true, if_false, if_true, List.map_cons, List.sum_cons,
        Prod.mk.injEq]
      exact ⟨trivial, by ring⟩
    · simp only [List.foldl_cons, h, if_neg, if_false]
      rw [ih]
      have hb : isBonus d = false := by simp [isBonus, h]
      simp only [entrySum, bonusSum, List.filter_cons, hb, Bool.not_false,
        Bool.false_eq_true, if_false, if_true, List.map_cons, List.sum_cons,
        Prod.mk.injEq]
      exact ⟨by ring, trivial⟩

theorem walkTotals_eq (rs : List CalcRecord) :
    walkTotals rs = (entrySum rs, bonusSum rs) := by
  have := walkTotals_aux rs 0 0
  simpa [walkTotals] using this

theorem sum_filter_split (p : CalcRecord → Bool) (f : CalcRecord → Rat)
    (l : List CalcRecord) :
    ((l.filter (fun x => !p x)).map f).sum + ((l.filter p).map f).sum =
      (l.map f).sum := by
  induction l with
  | nil => simp
  | cons a l ih =>
    by_cases h : p a
    · simp only [List.filter_cons, h, Bool.not_true, Bool.false_eq_true,
        if_false, if_true, List.map_cons, List.sum_cons]
      linarith [ih]
    · simp only [List.filter_cons, h, Bool.not_false, Bool.false_eq_true,
        if_false, if_true, List.map_cons, List.sum_cons]
      linarith [ih]

theorem entrySum_add_bonusSum (rs : List CalcRecord) :
    entrySum rs + bonusSum rs = (rs.map (fun d => d.value.getD 0)).sum := by
  unfold entrySum bonusSum
  exact sum_filter_split isBonus (fun d => d.value.getD 0) rs

theorem entrySum_perm {l l' : List CalcRecord} (h : l.Perm l') :
    entrySum l = entrySum l' := by
  unfold entrySum
  exact List.Perm.sum_eq (List.Perm.map _ (List.Perm.filter _ h))

theorem bonusSum_perm {l l' : List CalcRecord} (h : l.Perm l') :
    bonusSum l = bonusSum l' := by
  unfold bonusSum
  exact List.Perm.sum_eq (List.Perm.map _ (List.Perm.filter _ h))

theorem sortedWindow_perm (records : List CalcRecord) (now : DateTime)
    (u : String) :
    (sortedWindow records now u).Perm (monthWindowRecords records now u) :=
  List.perm_insertionSort calcDateDesc (monthWindowRecords records now u)

theorem roundHalfEven_intCast (n : Int) : roundHalfEven ((n : Rat)) = n := by
  unfold roundHalfEven
  rw [Int.floor_intCast]
  norm_num

theorem round2_intCast (n : Int) : round2 ((n : Rat)) = ((n : Rat)) := by
  unfold round2
  have h : (n : Rat) * 100 = (((n * 100 : Int) : Rat)) := by push_cast; ring
  rw [h, roundHalfEven_intCast]
  push_cast
  ring

theorem calc_summary_ok (records : List CalcRecord) (now : DateTime)
    (u : String) :
    calc_summary (some (.ok records)) now u =
      { latestFood := (sortedWindow records now u).head?.map (fun d => d.food)
        currentTotalCost := round2 (walkTotals (sortedWindow records now u)).1
        totalBonus := round2 (walkTotals (sortedWindow records now u)).2
        netAmount := round2 ((walkTotals (sortedWindow records now u)).1 +
          (walkTotals (sortedWindow records now u)).2)
        lastUpdatedDate :=
          (sortedWindow records now u).head?.map (fun d => d.date)
        monthStartDate := some (monthStartOf now)
        billPrintedDate := none
        remainingDays := some (dateDiffDays (nextMonthStartOf now) now) } :=
  rfl

theorem sortedWindow_sorted (records : List CalcRecord) (now : DateTime)
    (u : String) :
    List.Sorted calcDateDesc (sortedWindow records now u) := by
  haveI : IsTotal CalcRecord calcDateDesc :=
    ⟨fun a b => le_total b.date.toMicros a.date.toMicros⟩
  haveI : IsTrans CalcRecord calcDateDesc :=
    ⟨fun a b c h1 h2 => le_trans h2 h1⟩
  exact List.sorted_insertionSort calcDateDesc _

/-! ### C3: the summary walk -/

/-- C3: over the in-window records, `kind=entry` values accumulate into
`totalCost` and `kind=bonus` values into `totalBonus` in one walk; the
most recent in-window record supplies `latestItem` and `lastUpdated`;
`netAmount = totalCost + totalBonus`; rounding to two decimals happens
only at the output boundary (the statement applies `round2` to the exact
sums). The concrete January example yields 20.0 / -5.0 / 15.0 with the
February entry excluded. -/
theorem summary_accumulation :
    (∀ (records : List CalcRecord) (now : DateTime) (u : String),
      (calc_summary (some (.ok records)) now u).currentTotalCost =
        round2 (entrySum (monthWindowRecords records now u)) ∧
      (calc_summary (some (.ok records)) now u).totalBonus =
        round2 (bonusSum (monthWindowRecords records now u)) ∧
      (calc_summary (some (.ok records)) now u).netAmount =
        round2 (entrySum (monthWindowRecords records now u) +
          bonusSum (monthWindowRecords records now u)) ∧
      (monthWindowRecords records now u ≠ [] →
        ∃ d ∈ monthWindowRecords records now u,
          (calc_summary (some (.ok records)) now u).latestFood =
            some d.food ∧
          (calc_summary (some (.ok records)) now u).lastUpdatedDate =
            some d.date ∧
          ∀ e ∈ monthWindowRecords records now u,
            e.date.toMicros ≤ d.date.toMicros)) ∧
    (monthWindowRecords [ledgerJan15, ledgerJan20, ledgerFeb01] jan25
        "chamika" = [ledgerJan15, ledgerJan20] ∧
      (calc_summary (some (.ok [ledgerJan15, ledgerJan20, ledgerFeb01]))
        jan25 "chamika").currentTotalCost = 20 ∧
      (calc_summary (some (.ok [ledgerJan15, ledgerJan20, ledgerFeb01]))
        jan25 "chamika").totalBonus = -5 ∧
      (calc_summary (some (.ok [ledgerJan15, ledgerJan20, ledgerFeb01]))
        jan25 "chamika").netAmount = 15 ∧
      (calc_summary (some (.ok [ledgerJan15, ledgerJan20, ledgerFeb01]))
        jan25 "chamika").latestFood = some "tea" ∧
      (calc_summary (some (.ok [ledgerJan15, ledgerJan20, ledgerFeb01]))
        jan25 "chamika").lastUpdatedDate = some ⟨2024, 1, 20, 0, 0, 0, 0⟩) := by
  constructor
  · intro records now u
    have hperm := sortedWindow_perm records now u
    have hw := walkTotals_eq (sortedWindow records now u)
    refine ⟨?_, ?_, ?_, ?_⟩
    · show round2 (walkTotals (sortedWindow records now u)).1 = _
      rw [hw]
      exact congrArg round2 (entrySum_perm hperm)
    · show round2 (walkTotals (sortedWindow records now u)).2 = _
      rw [hw]
      exact congrArg round2 (bonusSum_perm hperm)
    · show round2 ((walkTotals (sortedWindow records now u)).1 +
        (walkTotals (sortedWindow records now u)).2) = _
      rw [hw]
      exact congrArg round2
        (by rw [entrySum_perm hperm, bonusSum_perm hperm])
    · intro hne
      have hsorted := sortedWindow_sorted records now u
      cases hcur : sortedWindow records now u with
      | nil =>
        exfalso
        apply hne
        have h2 := hperm
        rw [hcur] at h2
        exact (h2.symm).eq_nil
      | cons d t =>
        have hd_mem : d ∈ monthWindowRecords records now u := by
          apply hperm.mem_iff.mp
          rw [hcur]
          exact List.mem_cons_self d t
        refine ⟨d, hd_mem, ?_, ?_, ?_⟩
        · show (sortedWindow records now u).head?.map (fun d => d.food) =
            some d.food
          rw [hcur]
          rfl
        · show (sortedWindow records now u).head?.map (fun d => d.date) =
            some d.date
          rw [hcur]
          rfl
        · intro e he
          have he2 : e ∈ sortedWindow records now u := hperm.mem_iff.mpr he
          rw [hcur] at he2
          rcases List.mem_cons.mp he2 with h | h
          · subst h
            exact le_refl _
          · rw [hcur] at hsorted
            exact (List.pairwise_cons.mp hsorted).1 e h
  · have hsw : sortedWindow [ledgerJan15, ledgerJan20, ledgerFeb01] jan25
        "chamika" = [ledgerJan20, ledgerJan15] := rfl
    have hwt : walkTotals [ledgerJan20, ledgerJan15] =
        ((0 : Rat) + 20, (0 : Rat) + (-5)) := rfl
    have e20 : (0 : Rat) + 20 = ((20 : Int) : Rat) := by norm_num
    have em5 : (0 : Rat) + (-5) = ((-5 : Int) : Rat) := by norm_num
    have e15 : ((0 : Rat) + 20) + ((0 : Rat) + (-5)) =
        ((15 : Int) : Rat) := by norm_num
    refine ⟨rfl, ?_, ?_, ?_, ?_, ?_⟩
    · show round2 (walkTotals (sortedWindow
        [ledgerJan15, ledgerJan20, ledgerFeb01] jan25 "chamika")).1 = 20
      rw [hsw, hwt]
      show round2 ((0 : Rat) + 20) = 20
      rw [e20, round2_intCast]
      norm_num
    · show round2 (walkTotals (sortedWindow
        [ledgerJan15, ledgerJan20, ledgerFeb01] jan25 "chamika")).2 = -5
      rw [hsw, hwt]
      show round2 ((0 : Rat) + (-5)) = -5
      rw [em5, round2_intCast]
      norm_num
    · show round2 ((walkTotals (sortedWindow
          [ledgerJan15, ledgerJan20, ledgerFeb01] jan25 "chamika")).1 +
        (walkTotals (sortedWindow
          [ledgerJan15, ledgerJan20, ledgerFeb01] jan25 "chamika")).2) = 15
      rw [hsw, hwt]
      show round2 (((0 : Rat) + 20) + ((0 : Rat) + (-5))) = 15
      rw [e15, round2_intCast]
      norm_num
    · show (sortedWindow [ledgerJan15, ledgerJan20, ledgerFeb01] jan25
        "chamika").head?.map (fun d => d.food) = some "tea"
      rw [hsw]
      rfl
    · show (sortedWindow [ledgerJan15, ledgerJan20, ledgerFeb01] jan25
        "chamika").head?.map (fun d => d.date) =
          some ⟨2024, 1, 20, 0, 0, 0, 0⟩
      rw [hsw]
      rfl

theorem summary_accumulation_witness :
    monthWindowRecords [ledgerJan15, ledgerJan20, ledgerFeb01] jan25
        "chamika" ≠ [] ∧
      ∃ d ∈ monthWindowRecords [ledgerJan15, ledgerJan20, ledgerFeb01]
          jan25 "chamika",
        (calc_summary (some (.ok [ledgerJan15, ledgerJan20, ledgerFeb01]))
          jan25 "chamika").latestFood = some d.food ∧
        (calc_summary (some (.ok [ledgerJan15, ledgerJan20, ledgerFeb01]))
          jan25 "chamika").lastUpdatedDate = some d.date ∧
        ∀ e ∈ monthWindowRecords [ledgerJan15, ledgerJan20, ledgerFeb01]
            jan25 "chamika",
          e.date.toMicros ≤ d.date.toMicros :=
  ⟨by
      rw [show monthWindowRecords [ledgerJan15, ledgerJan20, ledgerFeb01]
        jan25 "chamika" = [ledgerJan15, ledgerJan20] from rfl]
      simp,
    ((summary_accumulation.1 [ledgerJan15, ledgerJan20, ledgerFeb01]
      jan25 "chamika").2.2.2) (by
        rw [show monthWindowRecords [ledgerJan15, ledgerJan20, ledgerFeb01]
          jan25 "chamika" = [ledgerJan15, ledgerJan20] from rfl]
        simp)⟩

/-! ### C10: netAmount is the rounded total of all in-window values -/

/-- C10 (implicit): the walk counts every in-window record in exactly one
total — a record is a bonus iff its `kind` is literally `"bonus"`, any
other (or missing) kind counts as cost, a missing/null value contributes
0 — so before rounding `netAmount` is the plain sum of all in-window
values; the output equals `round2` of that sum. -/
theorem summary_net_partition :
    (∀ rs : List CalcRecord, walkTotals rs = (entrySum rs, bonusSum rs)) ∧
    (∀ d : CalcRecord, isBonus d = true ↔ d.kind = some "bonus") ∧
    (∀ rs : List CalcRecord,
      entrySum rs + bonusSum rs = (rs.map (fun d => d.value.getD 0)).sum) ∧
    (∀ (records : List CalcRecord) (now : DateTime) (u : String),
      (calc_summary (some (.ok records)) now u).netAmount =
        round2 (((monthWindowRecords records now u).map
          (fun d => d.value.getD 0)).sum)) := by
  refine ⟨walkTotals_eq, ?_, entrySum_add_bonusSum, ?_⟩
  · intro d
    simp [isBonus]
  · intro records now u
    have hperm := sortedWindow_perm records now u
    show round2 ((walkTotals (sortedWindow records now u)).1 +
      (walkTotals (sortedWindow records now u)).2) = _
    rw [walkTotals_eq]
    have h1 : entrySum (sortedWindow records now u) +
        bonusSum (sortedWindow records now u) =
        ((sortedWindow records now u).map (fun d => d.value.getD 0)).sum :=
      entrySum_add_bonusSum _
    have h2 : ((sortedWindow records now u).map
        (fun d => d.value.getD 0)).sum =
        ((monthWindowRecords records now u).map
          (fun d => d.value.getD 0)).sum :=
      List.Perm.sum_eq (List.Perm.map _ hperm)
    show round2 (entrySum (sortedWindow records now u) +
      bonusSum (sortedWindow records now u)) = _
    rw [h1, h2]

/-! ### C1: the merged history view -/

theorem history_sorted_instances :
    (∀ a b : HistoryItem, histItemDesc a b ∨ histItemDesc b a) ∧
    (∀ a b c : HistoryItem,
      histItemDesc a b → histItemDesc b c → histItemDesc a c) := by
  constructor
  · intro a b
    have h := strLe_total b.createdAt a.createdAt
    simp only [Bool.or_eq_true] at h
    rcases h with h | h
    · exact Or.inl h
    · exact Or.inr h
  · intro a b c h1 h2
    exact strLe_trans h2 h1

/-- C1: the history operation takes at most `n` items of each type,
returns at most `n` items overall, in timestamp-descending order; on the
concrete 3-sensor/2-image store with distinct timestamps and cap 4 it
returns exactly 4 items, strictly descending, spanning both kinds. -/
theorem history_merge :
    (∀ (db : HistoryDB) (u : String) (n : Nat),
      List.Sorted histItemDesc (get_history (some db) u n) ∧
      (get_history (some db) u n).length ≤ n ∧
      (get_history (some db) u n).countP (fun x => x.type = "sensor") ≤ n ∧
      (get_history (some db) u n).countP (fun x => x.type = "image") ≤ n) ∧
    (get_history (some histSample) "chamika" 4 =
        [sensorToHistory sens1, imageToHistory img1,
          sensorToHistory sens2, imageToHistory img2] ∧
      strictDescChain (get_history (some histSample) "chamika" 4) = true ∧
      (get_history (some histSample) "chamika" 4).countP
        (fun x => x.type = "sensor") = 2 ∧
      (get_history (some histSample) "chamika" 4).countP
        (fun x => x.type = "image") = 2 ∧
      (get_history (some histSample) "chamika" 4).length = 4) := by
  constructor
  · intro db u n
    haveI : IsTotal HistoryItem histItemDesc := ⟨history_sorted_instances.1⟩
    haveI : IsTrans HistoryItem histItemDesc :=
      ⟨history_sorted_instances.2⟩
    have hsorted : List.Sorted histItemDesc
        (List.insertionSort histItemDesc (historyItems db u n)) :=
      List.sorted_insertionSort histItemDesc _
    have hget : get_history (some db) u n =
        (List.insertionSort histItemDesc (historyItems db u n)).take n := rfl
    have hsub : (get_history (some db) u n).Sublist
        (List.insertionSort histItemDesc (historyItems db u n)) := by
      rw [hget]
      exact List.take_sublist n _
    have hperm : (List.insertionSort histItemDesc
        (historyItems db u n)).Perm (historyItems db u n) :=
      List.perm_insertionSort histItemDesc _
    refine ⟨?_, ?_, ?_, ?_⟩
    · exact List.Pairwise.sublist hsub hsorted
    · rw [hget, List.length_take]
      exact min_le_left _ _
    · calc (get_history (some db) u n).countP (fun x => x.type = "sensor")
          ≤ (List.insertionSort histItemDesc
              (historyItems db u n)).countP (fun x => x.type = "sensor") :=
            List.Sublist.countP_le _ hsub
        _ = (historyItems db u n).countP (fun x => x.type = "sensor") :=
            List.Perm.countP_eq _ hperm
        _ ≤ n := by
            unfold historyItems
            rw [List.countP_append, List.countP_map, List.countP_map]
            have h1 : ((fun x : HistoryItem => decide (x.type = "sensor")) ∘
                sensorToHistory) = fun (_ : SensorRecord) => true := by
              funext a
              simp [Function.comp, sensorToHistory]
            have h2 : ((fun x : HistoryItem => decide (x.type = "sensor")) ∘
                imageToHistory) = fun (_ : ImageRecord) => false := by
              funext a
              simp [Function.comp, imageToHistory]
            rw [h1, h2, List.countP_true, List.countP_false]
            simp only [Function.const_apply, Nat.add_zero, List.length_take]
            exact min_le_left _ _
    · calc (get_history (some db) u n).countP (fun x => x.type = "image")
          ≤ (List.insertionSort histItemDesc
              (historyItems db u n)).countP (fun x => x.type = "image") :=
            List.Sublist.countP_le _ hsub
        _ = (historyItems db u n).countP (fun x => x.type = "image") :=
            List.Perm.countP_eq _ hperm
        _ ≤ n := by
            unfold historyItems
            rw [List.countP_append, List.countP_map, List.countP_map]
            have h1 : ((fun x : HistoryItem => decide (x.type = "image")) ∘
                sensorToHistory) = fun (_ : SensorRecord) => false := by
              funext a
              simp [Function.comp, sensorToHistory]
            have h2 : ((fun x : HistoryItem => decide (x.type = "image")) ∘
                imageToHistory) = fun (_ : ImageRecord) => true := by
              funext a
              simp [Function.comp, imageToHistory]
            rw [h1, h2, List.countP_true, List.countP_false]
            simp only [Function.const_apply, Nat.zero_add, List.length_take]
            exact min_le_left _ _
  · refine ⟨rfl, ?_, ?_, ?_, ?_⟩
    · decide
    · decide
    · decide
    · decide

/-! ### C7: thought truncation at 60 words -/

/-- C7: the thought endpoint caps the note at 60 words — a note whose
`split()` has more than 60 words is stored as exactly its first 60 words
(re-joined by single spaces), not rejected; the storage layer
(`add_thought`) keeps the text unchanged. -/
theorem thought_truncation :
    (∀ text, add_thought_text (some ()) text = some text) ∧
    (∀ input : List Char, 60 < (pyWords input).length →
      ∃ stored, thoughts_add_stored input = .ok stored ∧
        pyWords stored = (pyWords input).take 60 ∧
        (pyWords stored).length = 60) := by
  constructor
  · intro text
    rfl
  · intro input hlen
    have hstrip : pyWords (stripChars input) = pyWords input :=
      pyWords_strip input
    have hne : stripChars input ≠ [] := by
      intro h
      rw [h, pyWords_nil] at hstrip
      rw [← hstrip] at hlen
      simp at hlen
    have hgt : 60 < (pyWords (stripChars input)).length := by
      rw [hstrip]
      exact hlen
    have hwf : ∀ w ∈ (pyWords (stripChars input)).take 60,
        w ≠ [] ∧ ∀ c ∈ w, wsChar c = false := by
      intro w hw
      exact pyWords_wf _ w (List.take_subset _ _ hw)
    have hpw : pyWords (unwords ((pyWords (stripChars input)).take 60)) =
        (pyWords (stripChars input)).take 60 := pyWords_unwords hwf
    refine ⟨unwords ((pyWords (stripChars input)).take 60), ?_, ?_, ?_⟩
    · simp only [thoughts_add_stored]
      rw [if_neg hne, if_pos hgt]
    · rw [hpw, hstrip]
    · rw [hpw, List.length_take]
      exact Nat.min_eq_left (Nat.le_of_lt hgt)

theorem thought_truncation_witness :
    (add_thought_text (some ()) (unwords (List.replicate 75 ['a'])) =
      some (unwords (List.replicate 75 ['a']))) ∧
    60 < (pyWords (unwords (List.replicate 75 ['a']))).length ∧
    ∃ stored,
      thoughts_add_stored (unwords (List.replicate 75 ['a'])) =
        .ok stored ∧
      pyWords stored =
        (pyWords (unwords (List.replicate 75 ['a']))).take 60 ∧
      (pyWords stored).length = 60 := by
  have hwf75 : ∀ w ∈ List.replicate 75 (['a'] : List Char),
      w ≠ [] ∧ ∀ c ∈ w, wsChar c = false := by
    intro w hw
    have h := List.eq_of_mem_replicate hw
    subst h
    refine ⟨by simp, ?_⟩
    decide
  have h75 : pyWords (unwords (List.replicate 75 (['a'] : List Char))) =
      List.replicate 75 ['a'] := pyWords_unwords hwf75
  have hlen : 60 < (pyWords (unwords
      (List.replicate 75 (['a'] : List Char)))).length := by
    rw [h75, List.length_replicate]
    omega
  exact ⟨thought_truncation.1 _, hlen, thought_truncation.2 _ hlen⟩

end FreshiFy
